import Mathlib

set_option maxRecDepth 8000

/-!
Shallow embedding of the BackForCatalog storefront core: in-memory entity
store (JS `Map` modelled as an association list in insertion order), the
catalogue reader, the auth flow engine, the checkout transaction engine
(both the `src/services/checkout.ts` variant and the variant with the
rollback helper), and the expiry reaper.  Integer-valued JS numbers
(inventories, quantities, timestamps in ms) are modelled as `ℤ`; prices and
money amounts are modelled as `ℚ` together with an explicit binary64
round-to-nearest-even function `fl` applied where the source performs
floating-point arithmetic on them.
-/

deriving instance DecidableEq for Except

namespace BackForCatalog

/-! ### Data model (`src/types/index.ts`) -/

/-- `ProductStatus` from `src/types/index.ts`. -/
inductive ProductStatus where
  | active
  | draft
  | archived
deriving DecidableEq, Repr

/-- `ProductVariant` from `src/types/index.ts`. -/
structure ProductVariant where
  id : String
  title : String
deriving DecidableEq, Repr

/-- `Product` from `src/types/index.ts`.  `price` is a JS number (binary64);
inventory is an integer-valued JS number. -/
structure Product where
  id : String
  title : String
  status : ProductStatus
  price : ℚ
  inventory : ℤ
  variants : List ProductVariant
deriving DecidableEq, Repr

/-- `User` from `src/types/index.ts`; `createdAt` as ms since epoch. -/
structure User where
  email : String
  createdAt : ℤ
deriving DecidableEq, Repr

/-- `AuthorizationCode` from `src/types/index.ts`; `expiresAt` as ms since
epoch. -/
structure AuthorizationCode where
  code : String
  email : String
  expiresAt : ℤ
  used : Bool
deriving DecidableEq, Repr

/-! ### JS `Map` operations, modelled on association lists kept in
insertion order (the iteration order of a JS `Map`). -/

/-- `Map.get`: the value stored at `k`, if any. -/
def mapGet (k : String) : List (String × α) → Option α
  | [] => none
  | (k', v) :: rest => if k' = k then some v else mapGet k rest

/-- `Map.set`: replace the value at an existing key in place, otherwise
append the new entry at the end (JS `Map` insertion-order semantics). -/
def mapSet (k : String) (v : α) : List (String × α) → List (String × α)
  | [] => [(k, v)]
  | (k', v') :: rest => if k' = k then (k, v) :: rest else (k', v') :: mapSet k v rest

/-- `Map.delete`: remove the entry stored at `k`, if any. -/
def mapDel (k : String) : List (String × α) → List (String × α)
  | [] => []
  | (k', v') :: rest => if k' = k then rest else (k', v') :: mapDel k rest

/-- The three storage maps of `src/storage/index.ts` bundled as one state. -/
structure Store where
  products : List (String × Product)
  users : List (String × User)
  authCodes : List (String × AuthorizationCode)
deriving DecidableEq, Repr

/-! ### Catalogue service (`src/services/catalog.ts`) -/

/-- `PaginationQuery` from `src/types/index.ts`. -/
structure PaginationQuery where
  page : Option ℤ
  limit : Option ℤ
deriving DecidableEq, Repr

/-- Pagination metadata of `CatalogueResponse`. -/
structure Pagination where
  currentPage : ℤ
  totalPages : ℤ
  totalItems : ℤ
  itemsPerPage : ℤ
deriving DecidableEq, Repr

/-- `CatalogueResponse` from `src/types/index.ts`. -/
structure CatalogueResponse where
  products : List Product
  pagination : Pagination
deriving DecidableEq, Repr

/-- Floor of a rational, computed from its normalised representation;
models JS `Math.floor` on a finite number. -/
def qfloor (q : ℚ) : ℤ := q.num / (q.den : ℤ)

/-- Ceiling of a rational; models JS `Math.ceil` on a finite number. -/
def qceil (q : ℚ) : ℤ := -(qfloor (-q))

/-- JS `Array.prototype.slice(start, end)` on a list, with the index
normalisation JS performs (negative indices count from the end, indices are
clamped to the array bounds). -/
def jsSlice (start stop : ℤ) (l : List α) : List α :=
  let len : ℤ := l.length
  let s := if start < 0 then max (len + start) 0 else min start len
  let e := if stop < 0 then max (len + stop) 0 else min stop len
  (l.drop s.toNat).take (e - s).toNat

/-- The active products of the store, in insertion order: the loop over
`productsStorage.values()` filtering `status === 'active'` in
`getCatalogue`. -/
def activeProducts (s : Store) : List Product :=
  (s.products.map Prod.snd).filter (fun p => p.status = ProductStatus.active)

/-- `getCatalogue` from `src/services/catalog.ts`.  `Math.ceil(totalItems /
limit)` is modelled as the exact rational ceiling: for the integer ranges
that can occur the binary64 division followed by `Math.ceil` agrees with
it. -/
def getCatalogue (q : PaginationQuery) (s : Store) : CatalogueResponse :=
  let page := q.page.getD 1
  let limit := q.limit.getD 10
  if s.products.length = 0 then
    { products := [],
      pagination :=
        { currentPage := page, totalPages := 0, totalItems := 0, itemsPerPage := limit } }
  else
    let active := activeProducts s
    let totalItems : ℤ := active.length
    let totalPages := qceil ((totalItems : ℚ) / (limit : ℚ))
    let startIdx := (page - 1) * limit
    let endIdx := startIdx + limit
    { products := jsSlice startIdx endIdx active,
      pagination :=
        { currentPage := page, totalPages := totalPages, totalItems := totalItems,
          itemsPerPage := limit } }

/-- `getProductById` from `src/services/catalog.ts`: `null` when the store
is empty, the product is missing, or the product is not active. -/
def getProductById (s : Store) (productId : String) : Option Product :=
  if s.products.length = 0 then none
  else
    match mapGet productId s.products with
    | none => none
    | some p => if p.status = ProductStatus.active then some p else none

/-- The failure reasons of `checkProductAvailability`, in the priority
order of the source. -/
inductive AvailErr where
  | emptyCatalogue
  | notFound
  | notActive
  | insufficientInventory (available requested : ℤ)
deriving DecidableEq, Repr

/-- `checkProductAvailability` from `src/services/catalog.ts`; `none` means
available. -/
def checkProductAvailability (s : Store) (productId : String) (requestedQuantity : ℤ) :
    Option AvailErr :=
  if s.products.length = 0 then some AvailErr.emptyCatalogue
  else
    match mapGet productId s.products with
    | none => some AvailErr.notFound
    | some p =>
      if p.status ≠ ProductStatus.active then some AvailErr.notActive
      else if p.inventory < requestedQuantity then
        some (AvailErr.insufficientInventory p.inventory requestedQuantity)
      else none

/-- `updateProductInventory` from `src/services/catalog.ts`: deduct
`quantity` from the product's inventory, refusing when the store is empty,
the product is missing, or stock is insufficient. -/
def updateProductInventory (s : Store) (productId : String) (quantity : ℤ) : Bool × Store :=
  if s.products.length = 0 then (false, s)
  else
    match mapGet productId s.products with
    | none => (false, s)
    | some p =>
      if p.inventory < quantity then (false, s)
      else
        (true,
         { s with
            products := mapSet productId { p with inventory := p.inventory - quantity } s.products })

/-! ### Auth flow engine (`src/services/auth.ts`) -/

/-- `LoginResponse` from `src/types/index.ts`. -/
structure LoginResponse where
  authorizationCode : String
  expiresIn : ℤ
deriving DecidableEq, Repr

/-- The access token minted by `generateAccessToken` (`src/utils/wt.ts`),
abstracted to the claim that matters here: the subject (the bound email).
The HMAC signature itself is cryptographic and outside the embedding. -/
structure AccessToken where
  sub : String
deriving DecidableEq, Repr

/-- `TokenResponse` from `src/types/index.ts`. -/
structure TokenResponse where
  accessToken : AccessToken
  tokenType : String
  expiresIn : ℤ
deriving DecidableEq, Repr

/-- The three failure messages of `exchangeCodeForToken`. -/
inductive TokenErr where
  | invalidCode
  | alreadyUsed
  | expired
deriving DecidableEq, Repr

/-- `handleLogin` from `src/services/auth.ts`.  The randomly generated
code is passed in as `newCode` (an oracle for `randomBytes`), the clock as
`now`, and the configured code lifetime as `durMs`. -/
def handleLogin (email newCode : String) (now durMs : ℤ) (s : Store) : LoginResponse × Store :=
  let users :=
    match mapGet email s.users with
    | some _ => s.users
    | none => mapSet email { email := email, createdAt := now } s.users
  let entry : AuthorizationCode :=
    { code := newCode, email := email, expiresAt := now + durMs, used := false }
  ({ authorizationCode := newCode, expiresIn := durMs.fdiv 1000 },
   { s with users := users, authCodes := mapSet newCode entry s.authCodes })

/-- `exchangeCodeForToken` from `src/services/auth.ts`: not-found, then
already-used, then expired (which also deletes the entry), then success
(marks the code used and mints a token for the bound email).  `expSecs` is
`getTokenExpirationSeconds()`. -/
def exchangeCodeForToken (code : String) (now expSecs : ℤ) (s : Store) :
    Except TokenErr TokenResponse × Store :=
  match mapGet code s.authCodes with
  | none => (Except.error TokenErr.invalidCode, s)
  | some ac =>
    if ac.used then (Except.error TokenErr.alreadyUsed, s)
    else if ac.expiresAt < now then
      (Except.error TokenErr.expired, { s with authCodes := mapDel code s.authCodes })
    else
      (Except.ok
        { accessToken := { sub := ac.email }, tokenType := "Bearer", expiresIn := expSecs },
       { s with authCodes := mapSet code { ac with used := true } s.authCodes })

/-! ### Expiry reaper (`src/storage/index.ts`, `cleanupExpiredAuthCodes`) -/

/-- An authorization-code entry the sweep keeps: neither expired nor
used. -/
def liveEntry (now : ℤ) (ka : String × AuthorizationCode) : Bool :=
  !(decide (ka.2.expiresAt < now) || ka.2.used)

/-- The sweep loop of `cleanupExpiredAuthCodes`: walk the entries, delete
every entry with `expiresAt < now` or `used`, and count the deletions. -/
def cleanupLoop (now : ℤ) : List (String × AuthorizationCode) →
    List (String × AuthorizationCode) × ℕ
  | [] => ([], 0)
  | (c, ac) :: rest =>
    let (l, k) := cleanupLoop now rest
    if ac.expiresAt < now ∨ ac.used = true then (l, k + 1) else ((c, ac) :: l, k)

/-- `cleanupExpiredAuthCodes` from `src/storage/index.ts`: one reaper
sweep; returns the number of removed entries and the new store. -/
def cleanupExpiredAuthCodes (now : ℤ) (s : Store) : ℕ × Store :=
  let (l, k) := cleanupLoop now s.authCodes
  (k, { s with authCodes := l })

/-! ### Binary64 arithmetic model

JS numbers are IEEE 754 binary64.  Every finite binary64 value is a
rational; `fl` rounds an exact rational result back to the nearest
representable value (ties to even), with an unbounded exponent (no
overflow/underflow handling — irrelevant for the magnitudes that occur
here).  Only evaluation at concrete inputs is used; no rounding lemmas are
assumed. -/

/-- Fuel-based binary logarithm (structurally recursive so that concrete
instances reduce). -/
def log2Aux : ℕ → ℕ → ℕ
  | 0, _ => 0
  | fuel + 1, n => if n < 2 then 0 else log2Aux fuel (n / 2) + 1

/-- `⌊log₂ n⌋` for `n ≥ 1` (and `0` for `n = 0`). -/
def natLog2 (n : ℕ) : ℕ := log2Aux n n

/-- `2 ^ g` in `ℚ` for an integer exponent. -/
def qpow2 (g : ℤ) : ℚ :=
  if 0 ≤ g then ((2 ^ g.toNat : ℕ) : ℚ) else 1 / ((2 ^ (-g).toNat : ℕ) : ℚ)

/-- Absolute value on `ℚ`. -/
def qabs (q : ℚ) : ℚ := if q < 0 then -q else q

/-- `⌊log₂ x⌋` for a positive rational, by a guarded guess from the bit
lengths of numerator and denominator. -/
def floorLog2 (x : ℚ) : ℤ :=
  let g : ℤ := (natLog2 x.num.natAbs : ℤ) - (natLog2 x.den : ℤ)
  if x < qpow2 (g - 1) then g - 2
  else if x < qpow2 g then g - 1
  else if x < qpow2 (g + 1) then g
  else g + 1

/-- Round a rational to an integer, nearest, ties to even. -/
def roundHalfEven (x : ℚ) : ℤ :=
  let f := qfloor x
  let r := x - (f : ℚ)
  if r < 1 / 2 then f
  else if 1 / 2 < r then f + 1
  else if f % 2 = 0 then f else f + 1

/-- Round an exact rational to the nearest binary64 value (53-bit
significand, round-to-nearest-even, unbounded exponent). -/
def fl (q : ℚ) : ℚ :=
  if q = 0 then 0
  else
    let x := qabs q
    let e := floorLog2 x
    let m := roundHalfEven (x * qpow2 (52 - e))
    let v := (m : ℚ) * qpow2 (e - 52)
    if q < 0 then -v else v

/-! ### Checkout transaction engine (`src/services/checkout.ts` and the
sibling variant with `rollbackInventoryUpdates`, `src/unnamed/part_006`) -/

/-- `CheckoutItem` from `src/types/index.ts`. -/
structure CheckoutItem where
  productId : String
  quantity : ℤ
deriving DecidableEq, Repr

/-- Payment intent status. -/
inductive PaymentStatus where
  | pending
  | succeeded
  | failed
deriving DecidableEq, Repr

/-- The mock payment intent record. -/
structure PaymentIntent where
  id : String
  status : PaymentStatus
  amount : ℚ
deriving DecidableEq, Repr

/-- One priced line of `CheckoutResponse.items`. -/
structure PricedItem where
  productId : String
  quantity : ℤ
  unitPrice : ℚ
  subtotal : ℚ
deriving DecidableEq, Repr

/-- `CheckoutResponse` from `src/types/index.ts`. -/
structure CheckoutResponse where
  success : Bool
  totalAmount : ℚ
  currency : String
  paymentIntent : PaymentIntent
  items : List PricedItem
deriving DecidableEq, Repr

/-- The failure taxonomy of the checkout engine (the distinct `Error`
messages thrown by `processCheckout`). -/
inductive CheckoutErr where
  | emptyCatalogue
  | itemUnavailable (productId : String) (reason : AvailErr)
  | productNotFound (productId : String)
  | inventoryUpdateFailed (productId : String)
deriving DecidableEq, Repr

/-- The pre-flight validation loop of `processCheckout`: check every line
with `checkProductAvailability`, aborting on the first failing line. -/
def preflight (s : Store) : List CheckoutItem → Option CheckoutErr
  | [] => none
  | it :: rest =>
    match checkProductAvailability s it.productId it.quantity with
    | some e => some (CheckoutErr.itemUnavailable it.productId e)
    | none => preflight s rest

/-- The pricing loop of `processCheckout`: re-fetch each product, compute
`subtotal = price * quantity` and accumulate `totalAmount`, both in
binary64 arithmetic. -/
def pricingLoop (s : Store) : ℚ → List PricedItem → List CheckoutItem →
    Except CheckoutErr (ℚ × List PricedItem)
  | acc, done, [] => Except.ok (acc, done)
  | acc, done, it :: rest =>
    match getProductById s it.productId with
    | none => Except.error (CheckoutErr.productNotFound it.productId)
    | some p =>
      let subtotal := fl (p.price * (it.quantity : ℚ))
      pricingLoop s (fl (acc + subtotal))
        (done ++
          [{ productId := it.productId, quantity := it.quantity, unitPrice := p.price,
             subtotal := subtotal }])
        rest

/-- The debit loop of `src/services/checkout.ts`'s `processCheckout`: apply
`updateProductInventory` line by line; on failure, throw at once — debits
already applied stay applied. -/
def debitLoopSrc : Store → List CheckoutItem → Option CheckoutErr × Store
  | s, [] => (none, s)
  | s, it :: rest =>
    let r := updateProductInventory s it.productId it.quantity
    if r.1 then debitLoopSrc r.2 rest
    else (some (CheckoutErr.inventoryUpdateFailed it.productId), r.2)

/-- `processCheckout` from `src/services/checkout.ts`.  The random payment
intent id is passed in as `intentId`.  The outcome pairs the thrown error
or the response with the resulting store state. -/
def processCheckout (intentId : String) (items : List CheckoutItem) (s : Store) :
    Except CheckoutErr CheckoutResponse × Store :=
  match preflight s items with
  | some e => (Except.error e, s)
  | none =>
    match pricingLoop s 0 [] items with
    | Except.error e => (Except.error e, s)
    | Except.ok (totalAmount, ritems) =>
      let intent : PaymentIntent :=
        { id := intentId, status := PaymentStatus.pending, amount := totalAmount }
      match debitLoopSrc s items with
      | (some e, s') => (Except.error e, s')
      | (none, s') =>
        (Except.ok
          { success := true, totalAmount := totalAmount, currency := "GBP",
            paymentIntent := intent, items := ritems }, s')

/-- `rollbackInventoryUpdates` from the checkout variant: re-add each
recorded deducted quantity to the corresponding product. -/
def rollbackInventoryUpdates (s : Store) (updates : List (String × ℤ)) : Store :=
  updates.foldl
    (fun st u =>
      match mapGet u.1 st.products with
      | none => st
      | some p =>
        { st with products := mapSet u.1 { p with inventory := p.inventory + u.2 } st.products })
    s

/-- The debit loop of the rollback variant: record each successful debit in
`updates`; on a failed debit, roll back the recorded debits once and
report the failing product. -/
def debitLoopP6 : Store → List (String × ℤ) → List CheckoutItem →
    Option String × Store × List (String × ℤ)
  | s, updates, [] => (none, s, updates)
  | s, updates, it :: rest =>
    let r := updateProductInventory s it.productId it.quantity
    if r.1 then debitLoopP6 r.2 (updates ++ [(it.productId, it.quantity)]) rest
    else (some it.productId, rollbackInventoryUpdates r.2 updates, updates)

/-- `processCheckout` of the rollback variant (`src/unnamed/part_006`):
an empty store is rejected up front; a failed debit rolls back inside the
loop, and the surrounding `catch` block then runs
`rollbackInventoryUpdates` on the same `inventoryUpdates` array a second
time before rethrowing. -/
def processCheckoutP6 (intentId : String) (items : List CheckoutItem) (s : Store) :
    Except CheckoutErr CheckoutResponse × Store :=
  if s.products.length = 0 then (Except.error CheckoutErr.emptyCatalogue, s)
  else
    match preflight s items with
    | some e => (Except.error e, s)
    | none =>
      match pricingLoop s 0 [] items with
      | Except.error e => (Except.error e, s)
      | Except.ok (totalAmount, ritems) =>
        let intent : PaymentIntent :=
          { id := intentId, status := PaymentStatus.pending, amount := totalAmount }
        match debitLoopP6 s [] items with
        | (some pid, s1, updates) =>
          (Except.error (CheckoutErr.inventoryUpdateFailed pid),
           rollbackInventoryUpdates s1 updates)
        | (none, s1, _) =>
          (Except.ok
            { success := true, totalAmount := totalAmount, currency := "GBP",
              paymentIntent := intent, items := ritems }, s1)

/-! ### Token extraction (`src/utils/wt.ts`, `extractTokenFromHeader`) -/

/-- JS `String.prototype.split(sep)` for a one-character separator, on
strings as character lists; `"".split(sep)` is `[""]`. -/
def splitChar (sep : Char) : List Char → List (List Char)
  | [] => [[]]
  | c :: rest =>
    if c = sep then [] :: splitChar sep rest
    else
      match splitChar sep rest with
      | [] => [[c]]
      | p :: ps => (c :: p) :: ps

/-- The characters of the literal `'Bearer'`. -/
def bearerChars : List Char := ['B', 'e', 'a', 'r', 'e', 'r']

/-- `extractTokenFromHeader` from `src/utils/wt.ts`: `none` for a missing
or empty header (`!authHeader`), otherwise split on `' '` and require
exactly two parts whose first is `'Bearer'` (case-sensitive). -/
def extractTokenFromHeader : Option (List Char) → Option (List Char)
  | none => none
  | some cs =>
    if cs = [] then none
    else
      match splitChar ' ' cs with
      | [p0, p1] => if p0 = bearerChars then some p1 else none
      | _ => none

/-! ### Sequential operation model

A sequential run of the core: each step is one of the operations of the
spec's core (login, redeem, catalogue read, checkout in either variant,
reaper sweep), applied atomically to the shared store. -/

/-- One core operation.  Randomly generated values (the authorization code,
the payment intent id) and clock readings are carried as data. -/
inductive Op where
  | login (email newCode : String) (now durMs : ℤ)
  | redeem (code : String) (now expSecs : ℤ)
  | catalogue (q : PaginationQuery)
  | checkoutSrc (intentId : String) (items : List CheckoutItem)
  | checkoutP6 (intentId : String) (items : List CheckoutItem)
  | sweep (now : ℤ)

/-- The store reached after one operation (catalogue reads are pure). -/
def applyOp (s : Store) : Op → Store
  | Op.login e c n d => (handleLogin e c n d s).2
  | Op.redeem c n es => (exchangeCodeForToken c n es s).2
  | Op.catalogue _ => s
  | Op.checkoutSrc pid items => (processCheckout pid items s).2
  | Op.checkoutP6 pid items => (processCheckoutP6 pid items s).2
  | Op.sweep n => (cleanupExpiredAuthCodes n s).2

/-- The store reached after a sequence of operations. -/
def runOps (s : Store) (ops : List Op) : Store := ops.foldl applyOp s

/-- Every product inventory in the store is non-negative. -/
def InvNonneg (s : Store) : Prop := ∀ kp ∈ s.products, 0 ≤ kp.2.inventory

/-- All line quantities of a checkout operation are positive (vacuously
true for the other operations). -/
def opQuantitiesPos : Op → Prop
  | Op.checkoutSrc _ items => ∀ it ∈ items, 0 < it.quantity
  | Op.checkoutP6 _ items => ∀ it ∈ items, 0 < it.quantity
  | _ => True

/-- The tracked code is either absent from the store or marked used. -/
def UsedOrAbsent (c : String) (s : Store) : Prop :=
  ∀ ac, mapGet c s.authCodes = some ac → ac.used = true

/-- The keys of an association list are pairwise distinct (always true of
a state reachable from a real JS `Map`). -/
def NodupKeys (l : List (String × α)) : Prop := (l.map Prod.fst).Nodup

/-- The operation is not a login that (re-)issues the tracked code value
`c`; logins generate 32 bytes of fresh randomness, so a collision with a
previously issued code is excluded from the model. -/
def loginAvoids (c : String) : Op → Prop
  | Op.login _ c' _ _ => c' ≠ c
  | _ => True

/-- Whether an `Except` result is a success. -/
def exIsOk : Except ε α → Bool
  | Except.ok _ => true
  | Except.error _ => false

/-- How many redeems of code `c` in the given run succeed. -/
def redeemSuccessCount (c : String) : Store → List Op → ℕ
  | _, [] => 0
  | s, op :: rest =>
    let n := redeemSuccessCount c (applyOp s op) rest
    match op with
    | Op.redeem c' now es =>
      if c' = c ∧ exIsOk (exchangeCodeForToken c' now es s).1 = true then n + 1 else n
    | _ => n

/-- Along the given run, every redeem of code `c` fails, with either the
already-used error or the invalid-code error. -/
def redeemsAllFail (c : String) : Store → List Op → Prop
  | _, [] => True
  | s, op :: rest =>
    (∀ now es, op = Op.redeem c now es →
      (exchangeCodeForToken c now es s).1 = Except.error TokenErr.alreadyUsed ∨
      (exchangeCodeForToken c now es s).1 = Except.error TokenErr.invalidCode) ∧
    redeemsAllFail c (applyOp s op) rest

/-- The spec-side binary64 accumulation of `unitPrice * quantity` over the
lines of a checkout request: round each product once and each running
addition once, as binary64 evaluation of `totalAmount += price * quantity`
does. -/
def floatTotal (s : Store) (items : List CheckoutItem) : ℚ :=
  items.foldl
    (fun acc it =>
      match getProductById s it.productId with
      | some p => fl (acc + fl (p.price * (it.quantity : ℚ)))
      | none => acc)
    0

/-! ### Decidability instances for the predicates above -/

instance (s : Store) : Decidable (InvNonneg s) :=
  inferInstanceAs (Decidable (∀ kp ∈ s.products, 0 ≤ kp.2.inventory))

instance : (op : Op) → Decidable (opQuantitiesPos op)
  | Op.login _ _ _ _ => inferInstanceAs (Decidable True)
  | Op.redeem _ _ _ => inferInstanceAs (Decidable True)
  | Op.catalogue _ => inferInstanceAs (Decidable True)
  | Op.checkoutSrc _ items => inferInstanceAs (Decidable (∀ it ∈ items, 0 < it.quantity))
  | Op.checkoutP6 _ items => inferInstanceAs (Decidable (∀ it ∈ items, 0 < it.quantity))
  | Op.sweep _ => inferInstanceAs (Decidable True)

instance (c : String) : (op : Op) → Decidable (loginAvoids c op)
  | Op.login _ c' _ _ => inferInstanceAs (Decidable (c' ≠ c))
  | Op.redeem _ _ _ => inferInstanceAs (Decidable True)
  | Op.catalogue _ => inferInstanceAs (Decidable True)
  | Op.checkoutSrc _ _ => inferInstanceAs (Decidable True)
  | Op.checkoutP6 _ _ => inferInstanceAs (Decidable True)
  | Op.sweep _ => inferInstanceAs (Decidable True)

instance (l : List (String × α)) : Decidable (NodupKeys l) :=
  inferInstanceAs (Decidable (l.map Prod.fst).Nodup)

/-! ### Concrete instances used by the evaluation theorems -/

/-- A one-product store: `p1` active, price 1, inventory 5. -/
def storeOneProd : Store :=
  { products :=
      [("p1",
        { id := "p1", title := "P1", status := ProductStatus.active, price := 1, inventory := 5,
          variants := [] })],
    users := [], authCodes := [] }

/-- Two lines for the same product, each within stock but jointly above
it. -/
def dupItems : List CheckoutItem :=
  [{ productId := "p1", quantity := 3 }, { productId := "p1", quantity := 3 }]

/-- The binary64 value nearest 19.99 (the parsed JS literal `19.99`). -/
def p1999 : ℚ := 5626684784446013 / 281474976710656

/-- The binary64 value nearest 59.97 (the parsed JS literal `59.97`). -/
def d5997 : ℚ := 2110006794167255 / 35184372088832

/-- The store of the spec's concrete scenario: `prod_1`, price 19.99,
inventory 10. -/
def storeSpecScenario : Store :=
  { products :=
      [("prod_1",
        { id := "prod_1", title := "Product 1", status := ProductStatus.active, price := p1999,
          inventory := 10, variants := [] })],
    users := [], authCodes := [] }

/-- The single line `{prod_1, qty: 3}` of the spec's concrete scenario. -/
def specScenarioItems : List CheckoutItem := [{ productId := "prod_1", quantity := 3 }]

/-- The checkout response that the spec's concrete scenario produces. -/
def specScenarioResponse : CheckoutResponse :=
  { success := true, totalAmount := d5997, currency := "GBP",
    paymentIntent := { id := "pi_t", status := PaymentStatus.pending, amount := d5997 },
    items := [{ productId := "prod_1", quantity := 3, unitPrice := p1999, subtotal := d5997 }] }

/-- A store with no products, users, or codes. -/
def storeEmpty : Store := { products := [], users := [], authCodes := [] }

/-- A store holding one already-used authorization code `c`. -/
def wStoreUsed : Store :=
  { products := [], users := [],
    authCodes := [("c", { code := "c", email := "a@b.com", expiresAt := 100, used := true })] }

/-- A store holding one unused authorization code `c` expiring at 100. -/
def wStoreUnused : Store :=
  { products := [], users := [],
    authCodes := [("c", { code := "c", email := "a@b.com", expiresAt := 100, used := false })] }

/-- A three-product catalogue store: two active products and a draft. -/
def wStoreCat : Store :=
  { products :=
      [("pa", { id := "pa", title := "A", status := ProductStatus.active, price := 1,
                inventory := 1, variants := [] }),
       ("pb", { id := "pb", title := "B", status := ProductStatus.draft, price := 1,
                inventory := 1, variants := [] }),
       ("pc", { id := "pc", title := "C", status := ProductStatus.active, price := 1,
                inventory := 1, variants := [] })],
    users := [], authCodes := [] }

/-- A store holding one dead (used) and one live authorization code. -/
def wStoreMix : Store :=
  { products := [], users := [],
    authCodes :=
      [("c1", { code := "c1", email := "a@b.com", expiresAt := 100, used := true }),
       ("c2", { code := "c2", email := "b@b.com", expiresAt := 100, used := false })] }

/-! ### Theorems

The `Rat` arithmetic operations are `@[irreducible]` in the library; they
are unsealed here so that closed rational computations reduce. -/

unseal Rat.add Rat.mul Rat.inv Rat.sub

/-- C6: a request listing the same product twice, each line within current
stock but their sum above it, passes the pre-flight check (both lines are
checked against the same unchanged inventory) and then fails in the debit
pass with an inventory-update error — in a purely sequential execution. -/
theorem duplicate_lines_pass_preflight_fail_debit :
    preflight storeOneProd dupItems = none ∧
    (processCheckout "pi_1" dupItems storeOneProd).1 =
      Except.error (CheckoutErr.inventoryUpdateFailed "p1") := by
  decide

/-- C1 (failing input): on the request `[{p1,3},{p1,3}]` against inventory
5, the debit pass fails on the second line, and neither checkout variant
restores the pre-request inventory of 5: the `src/services/checkout.ts`
variant applies no rollback and leaves the first debit in place (inventory
2), while the `part_006` variant runs its rollback twice — once inside the
loop and once more in the `catch` block — and leaves inventory 8. -/
theorem rollback_divergence_on_failed_debit :
    ((processCheckout "pi_1" dupItems storeOneProd).1 =
        Except.error (CheckoutErr.inventoryUpdateFailed "p1") ∧
      (mapGet "p1" (processCheckout "pi_1" dupItems storeOneProd).2.products).map
          Product.inventory = some 2) ∧
    ((processCheckoutP6 "pi_1" dupItems storeOneProd).1 =
        Except.error (CheckoutErr.inventoryUpdateFailed "p1") ∧
      (mapGet "p1" (processCheckoutP6 "pi_1" dupItems storeOneProd).2.products).map
          Product.inventory = some 8) := by
  decide

/-- C5 (counterexample): in the spec's own concrete scenario (one line,
unit price the binary64 number 19.99, quantity 3) the returned
`totalAmount` is the binary64 number written 59.97, which is neither the
exact product `unitPrice * 3` nor the exact decimal 59.97 — so "totalAmount
equals the sum of unitPrice*quantity over all lines, exactly" fails on the
code. -/
theorem checkout_total_not_exact_sum :
    ((processCheckout "pi_t" specScenarioItems storeSpecScenario).1.map
        CheckoutResponse.totalAmount) = Except.ok d5997 ∧
    d5997 ≠ p1999 * 3 ∧
    d5997 ≠ 5997 / 100 := by
  decide

/-! #### Association-list map lemmas -/

theorem mem_mapSet {α : Type _} {k : String} {v : α} :
    ∀ {l : List (String × α)} {x : String × α}, x ∈ mapSet k v l → x = (k, v) ∨ x ∈ l := by
  intro l
  induction l with
  | nil =>
    intro x h
    simp only [mapSet, List.mem_singleton] at h
    exact Or.inl h
  | cons hd tl ih =>
    intro x h
    obtain ⟨k', v'⟩ := hd
    by_cases hk : k' = k
    · simp only [mapSet, if_pos hk, List.mem_cons] at h
      rcases h with h | h
      · exact Or.inl h
      · exact Or.inr (List.mem_cons_of_mem _ h)
    · simp only [mapSet, if_neg hk, List.mem_cons] at h
      rcases h with h | h
      · exact Or.inr (by simp [h])
      · rcases ih h with h' | h'
        · exact Or.inl h'
        · exact Or.inr (List.mem_cons_of_mem _ h')

theorem mapGet_mem {α : Type _} {k : String} {v : α} :
    ∀ {l : List (String × α)}, mapGet k l = some v → (k, v) ∈ l := by
  intro l
  induction l with
  | nil => intro h; simp [mapGet] at h
  | cons hd tl ih =>
    intro h
    obtain ⟨k', v'⟩ := hd
    by_cases hk : k' = k
    · simp only [mapGet, if_pos hk, Option.some_inj] at h
      subst hk; subst h
      exact List.mem_cons_self _ _
    · simp only [mapGet, if_neg hk] at h
      exact List.mem_cons_of_mem _ (ih h)

/-! #### Inventory non-negativity (supporting C2) -/

theorem invNonneg_of_products_eq {s t : Store} (h : t.products = s.products)
    (hs : InvNonneg s) : InvNonneg t := fun kp hkp => hs kp (h ▸ hkp)

theorem updateProductInventory_nonneg (s : Store) (pid : String) (q : ℤ)
    (hs : InvNonneg s) : InvNonneg (updateProductInventory s pid q).2 := by
  unfold updateProductInventory
  split
  · exact hs
  · cases hget : mapGet pid s.products with
    | none => simpa [hget] using hs
    | some p =>
      simp only [hget]
      split
      · exact hs
      · intro kp hkp
        simp only at hkp
        rcases mem_mapSet hkp with h | h
        · subst h
          simp only
          rename_i hlt
          omega
        · exact hs kp h

theorem debitLoopSrc_nonneg (items : List CheckoutItem) :
    ∀ s : Store, InvNonneg s → InvNonneg (debitLoopSrc s items).2 := by
  induction items with
  | nil => intro s hs; exact hs
  | cons it rest ih =>
    intro s hs
    simp only [debitLoopSrc]
    split
    · exact ih _ (updateProductInventory_nonneg s it.productId it.quantity hs)
    · exact updateProductInventory_nonneg s it.productId it.quantity hs

theorem rollbackInventoryUpdates_nonneg :
    ∀ (updates : List (String × ℤ)) (s : Store), (∀ u ∈ updates, 0 ≤ u.2) → InvNonneg s →
      InvNonneg (rollbackInventoryUpdates s updates) := by
  intro updates
  induction updates with
  | nil => intro s _ hs; exact hs
  | cons u rest ih =>
    intro s hu hs
    simp only [rollbackInventoryUpdates, List.foldl_cons] at *
    apply ih _ (fun v hv => hu v (List.mem_cons_of_mem _ hv))
    cases hget : mapGet u.1 s.products with
    | none => simpa [hget] using hs
    | some p =>
      simp only [hget]
      intro kp hkp
      rcases mem_mapSet hkp with h | h
      · subst h
        simp only
        have h0 : 0 ≤ p.inventory := hs (u.1, p) (mapGet_mem hget)
        have h1 : 0 ≤ u.2 := hu u (List.mem_cons_self _ _)
        omega
      · exact hs kp h

theorem debitLoopP6_nonneg (items : List CheckoutItem) :
    ∀ (s : Store) (updates : List (String × ℤ)),
      InvNonneg s → (∀ it ∈ items, 0 ≤ it.quantity) → (∀ u ∈ updates, 0 ≤ u.2) →
      InvNonneg (debitLoopP6 s updates items).2.1 ∧
        ∀ u ∈ (debitLoopP6 s updates items).2.2, 0 ≤ u.2 := by
  induction items with
  | nil => intro s updates hs _ hu; exact ⟨hs, hu⟩
  | cons it rest ih =>
    intro s updates hs hq hu
    simp only [debitLoopP6]
    split
    · apply ih _ _ (updateProductInventory_nonneg s it.productId it.quantity hs)
        (fun j hj => hq j (List.mem_cons_of_mem _ hj))
      intro u humem
      rcases List.mem_append.1 humem with h | h
      · exact hu u h
      · simp only [List.mem_singleton] at h
        subst h
        exact hq it (List.mem_cons_self _ _)
    · refine ⟨?_, hu⟩
      exact rollbackInventoryUpdates_nonneg _ _ hu
        (updateProductInventory_nonneg s it.productId it.quantity hs)

theorem processCheckout_nonneg (pid : String) (items : List CheckoutItem) (s : Store)
    (hs : InvNonneg s) : InvNonneg (processCheckout pid items s).2 := by
  unfold processCheckout
  cases h1 : preflight s items with
  | some e => exact hs
  | none =>
    cases h2 : pricingLoop s 0 [] items with
    | error e => exact hs
    | ok pr =>
      obtain ⟨t, ri⟩ := pr
      have hd := debitLoopSrc_nonneg items s hs
      cases h3 : debitLoopSrc s items with
      | mk o s' =>
        rw [h3] at hd
        cases o <;> simpa using hd

theorem processCheckoutP6_nonneg (pid : String) (items : List CheckoutItem) (s : Store)
    (hs : InvNonneg s) (hq : ∀ it ∈ items, 0 ≤ it.quantity) :
    InvNonneg (processCheckoutP6 pid items s).2 := by
  unfold processCheckoutP6
  split
  · exact hs
  · cases h1 : preflight s items with
    | some e => exact hs
    | none =>
      cases h2 : pricingLoop s 0 [] items with
      | error e => exact hs
      | ok pr =>
        obtain ⟨t, ri⟩ := pr
        have hd := debitLoopP6_nonneg items s [] hs hq (by intro u hu; simp at hu)
        cases h3 : debitLoopP6 s [] items with
        | mk o rest =>
          obtain ⟨s1, updates⟩ := rest
          rw [h3] at hd
          cases o with
          | none => simpa using hd.1
          | some pid' =>
            simp only
            exact rollbackInventoryUpdates_nonneg _ _ hd.2 hd.1

theorem applyOp_nonneg (op : Op) (s : Store) (hs : InvNonneg s) (hq : opQuantitiesPos op) :
    InvNonneg (applyOp s op) := by
  cases op with
  | login e c n d => exact invNonneg_of_products_eq (by simp [applyOp, handleLogin]) hs
  | redeem c n es =>
    apply invNonneg_of_products_eq (s := s) ?_ hs
    show ((exchangeCodeForToken c n es s).2).products = s.products
    unfold exchangeCodeForToken
    cases mapGet c s.authCodes with
    | none => rfl
    | some ac =>
      simp only
      split
      · rfl
      · split <;> rfl
  | catalogue q => exact hs
  | checkoutSrc pid items => exact processCheckout_nonneg pid items s hs
  | checkoutP6 pid items =>
    exact processCheckoutP6_nonneg pid items s hs (fun it h => le_of_lt (hq it h))
  | sweep n =>
    apply invNonneg_of_products_eq (s := s) ?_ hs
    show ((cleanupExpiredAuthCodes n s).2).products = s.products
    unfold cleanupExpiredAuthCodes
    cases cleanupLoop n s.authCodes with
    | mk l k => rfl

/-- C2: starting from any store whose product inventories are all
non-negative, any sequence of core operations — login, redeem, catalogue
reads, checkout (either variant) with positive-integer line quantities,
reaper sweeps — leaves every product's inventory non-negative. -/
theorem inventory_never_negative (ops : List Op) (s : Store) (hs : InvNonneg s)
    (hops : ∀ op ∈ ops, opQuantitiesPos op) : InvNonneg (runOps s ops) := by
  induction ops generalizing s with
  | nil => exact hs
  | cons op rest ih =>
    simp only [runOps, List.foldl_cons]
    exact ih (applyOp s op)
      (applyOp_nonneg op s hs (hops op (List.mem_cons_self _ _)))
      (fun o ho => hops o (List.mem_cons_of_mem _ ho))

/-- Witness for C2 at a concrete run exercising both checkout variants
(including the rollback path) on `storeOneProd`. -/
theorem inventory_never_negative_witness :
    InvNonneg storeOneProd ∧
    (∀ op ∈ [Op.checkoutP6 "pi_1" dupItems, Op.checkoutSrc "pi_1" dupItems],
      opQuantitiesPos op) ∧
    InvNonneg
      (runOps storeOneProd [Op.checkoutP6 "pi_1" dupItems, Op.checkoutSrc "pi_1" dupItems]) :=
  ⟨by decide, by decide,
    inventory_never_negative _ _ (by decide) (by decide)⟩

/-! #### Pre-flight framing (supporting C4) -/

theorem preflight_append_fail (s : Store) (it : CheckoutItem) (e : AvailErr)
    (post : List CheckoutItem) :
    ∀ pre : List CheckoutItem,
      (∀ j ∈ pre, checkProductAvailability s j.productId j.quantity = none) →
      checkProductAvailability s it.productId it.quantity = some e →
      preflight s (pre ++ it :: post) =
        some (CheckoutErr.itemUnavailable it.productId e) := by
  intro pre
  induction pre with
  | nil =>
    intro _ hit
    simp [preflight, hit]
  | cons j tl ih =>
    intro hpre hit
    have hj := hpre j (List.mem_cons_self _ _)
    simp only [List.cons_append, preflight, hj]
    exact ih (fun x hx => hpre x (List.mem_cons_of_mem _ hx)) hit

/-- C4: when a line fails the pre-flight availability check, `processCheckout`
aborts at the first failing line with that line's unavailability error and
returns the store completely unchanged — the validation pass mutates
nothing. -/
theorem preflight_failure_mutates_nothing (intentId : String) (s : Store)
    (pre post : List CheckoutItem) (it : CheckoutItem) (e : AvailErr)
    (hpre : ∀ j ∈ pre, checkProductAvailability s j.productId j.quantity = none)
    (hit : checkProductAvailability s it.productId it.quantity = some e) :
    processCheckout intentId (pre ++ it :: post) s =
      (Except.error (CheckoutErr.itemUnavailable it.productId e), s) := by
  unfold processCheckout
  rw [preflight_append_fail s it e post pre hpre hit]

/-- Witness for C4: failure forced on the middle line only; the earlier
line passes availability, and the request returns the store unchanged. -/
theorem preflight_failure_mutates_nothing_witness :
    (∀ j ∈ [({ productId := "p1", quantity := 2 } : CheckoutItem)],
      checkProductAvailability storeOneProd j.productId j.quantity = none) ∧
    checkProductAvailability storeOneProd "p1" 9 =
      some (AvailErr.insufficientInventory 5 9) ∧
    processCheckout "pi_1"
        ([{ productId := "p1", quantity := 2 }] ++
          ({ productId := "p1", quantity := 9 } : CheckoutItem) ::
            [{ productId := "p1", quantity := 1 }])
        storeOneProd =
      (Except.error
        (CheckoutErr.itemUnavailable "p1" (AvailErr.insufficientInventory 5 9)),
       storeOneProd) :=
  ⟨by decide, by decide,
    preflight_failure_mutates_nothing "pi_1" storeOneProd _ _ _ _ (by decide) (by decide)⟩

/-! #### Redeem case analysis (supporting C7) -/

/-- C7: `exchangeCodeForToken` fails with the invalid-code error when the
code is absent; with the already-used error when the stored entry has
`used = true`; with the expired error when `now > expiresAt` (and only in
that case it deletes the entry as a side effect); and otherwise succeeds,
marking the entry used and returning an access token for the bound
email. -/
theorem exchangeCodeForToken_cases (code : String) (now expSecs : ℤ) (s : Store) :
    (mapGet code s.authCodes = none →
      exchangeCodeForToken code now expSecs s = (Except.error TokenErr.invalidCode, s)) ∧
    (∀ ac, mapGet code s.authCodes = some ac → ac.used = true →
      exchangeCodeForToken code now expSecs s = (Except.error TokenErr.alreadyUsed, s)) ∧
    (∀ ac, mapGet code s.authCodes = some ac → ac.used = false → ac.expiresAt < now →
      exchangeCodeForToken code now expSecs s =
        (Except.error TokenErr.expired,
         { s with authCodes := mapDel code s.authCodes })) ∧
    (∀ ac, mapGet code s.authCodes = some ac → ac.used = false → now ≤ ac.expiresAt →
      exchangeCodeForToken code now expSecs s =
        (Except.ok
          { accessToken := { sub := ac.email }, tokenType := "Bearer", expiresIn := expSecs },
         { s with authCodes := mapSet code { ac with used := true } s.authCodes })) := by
  refine ⟨?_, ?_, ?_, ?_⟩
  · intro h
    simp [exchangeCodeForToken, h]
  · intro ac h hu
    simp [exchangeCodeForToken, h, hu]
  · intro ac h hu hexp
    simp [exchangeCodeForToken, h, hu, hexp]
  · intro ac h hu hexp
    simp [exchangeCodeForToken, h, hu, show ¬(ac.expiresAt < now) from not_lt.2 hexp]

/-- Witness for C7: all four branches at concrete stores — absent code,
used code, expired unused code (entry deleted), and live unused code
(entry marked used, token bound to the email). -/
theorem exchangeCodeForToken_cases_witness :
    exchangeCodeForToken "c" 0 60 storeEmpty =
      (Except.error TokenErr.invalidCode, storeEmpty) ∧
    exchangeCodeForToken "c" 0 60 wStoreUsed =
      (Except.error TokenErr.alreadyUsed, wStoreUsed) ∧
    exchangeCodeForToken "c" 200 60 wStoreUnused =
      (Except.error TokenErr.expired,
       { wStoreUnused with authCodes := mapDel "c" wStoreUnused.authCodes }) ∧
    exchangeCodeForToken "c" 50 60 wStoreUnused =
      (Except.ok
        { accessToken := { sub := "a@b.com" }, tokenType := "Bearer", expiresIn := 60 },
       { wStoreUnused with
          authCodes :=
            mapSet "c" { code := "c", email := "a@b.com", expiresAt := 100, used := true }
              wStoreUnused.authCodes }) :=
  ⟨(exchangeCodeForToken_cases "c" 0 60 storeEmpty).1 (by decide),
   (exchangeCodeForToken_cases "c" 0 60 wStoreUsed).2.1
     { code := "c", email := "a@b.com", expiresAt := 100, used := true } (by decide) (by decide),
   (exchangeCodeForToken_cases "c" 200 60 wStoreUnused).2.2.1
     { code := "c", email := "a@b.com", expiresAt := 100, used := false } (by decide) (by decide)
     (by decide),
   (exchangeCodeForToken_cases "c" 50 60 wStoreUnused).2.2.2
     { code := "c", email := "a@b.com", expiresAt := 100, used := false } (by decide) (by decide)
     (by decide)⟩

/-! #### Reaper sweep (supporting C9) -/

theorem cleanupLoop_spec (now : ℤ) :
    ∀ l : List (String × AuthorizationCode),
      (cleanupLoop now l).1 = l.filter (liveEntry now) ∧
      (cleanupLoop now l).2 + (cleanupLoop now l).1.length = l.length := by
  intro l
  induction l with
  | nil => simp [cleanupLoop]
  | cons hd tl ih =>
    obtain ⟨c, ac⟩ := hd
    cases hrec : cleanupLoop now tl with
    | mk l' k =>
      rw [hrec] at ih
      dsimp only at ih
      simp only [cleanupLoop, hrec]
      by_cases hcond : ac.expiresAt < now ∨ ac.used = true
      · rw [if_pos hcond]
        dsimp only
        have hb : liveEntry now (c, ac) = false := by
          rcases hcond with h | h <;> simp [liveEntry, h]
        constructor
        · rw [List.filter_cons_of_neg (by rw [hb]; exact Bool.false_ne_true), ih.1]
        · have := ih.2
          simp only [List.length_cons]
          omega
      · rw [if_neg hcond]
        dsimp only
        push_neg at hcond
        have hb : liveEntry now (c, ac) = true := by
          simp [liveEntry, hcond.1, hcond.2]
        constructor
        · rw [List.filter_cons_of_pos hb, ih.1]
        · have := ih.2
          simp only [List.length_cons]
          omega

/-- C9: one reaper sweep removes exactly the entries with `used = true` or
`expiresAt < now`: what remains is the filter of the live entries (in
order), every surviving entry is unused and unexpired, no live entry is
removed, the returned count is the number of removed entries, and the
other two collections are untouched. -/
theorem cleanup_removes_exactly_dead (now : ℤ) (s : Store) :
    ((cleanupExpiredAuthCodes now s).2).authCodes = s.authCodes.filter (liveEntry now) ∧
    (∀ ka ∈ ((cleanupExpiredAuthCodes now s).2).authCodes,
      ka.2.used = false ∧ now ≤ ka.2.expiresAt) ∧
    (∀ ka ∈ s.authCodes, ka.2.used = false → now ≤ ka.2.expiresAt →
      ka ∈ ((cleanupExpiredAuthCodes now s).2).authCodes) ∧
    (cleanupExpiredAuthCodes now s).1 =
      s.authCodes.length - ((cleanupExpiredAuthCodes now s).2).authCodes.length ∧
    ((cleanupExpiredAuthCodes now s).2).products = s.products ∧
    ((cleanupExpiredAuthCodes now s).2).users = s.users := by
  have hspec := cleanupLoop_spec now s.authCodes
  cases hrec : cleanupLoop now s.authCodes with
  | mk l' k =>
    rw [hrec] at hspec
    dsimp only at hspec
    have hac : ((cleanupExpiredAuthCodes now s).2).authCodes = l' := by
      simp [cleanupExpiredAuthCodes, hrec]
    have hk : (cleanupExpiredAuthCodes now s).1 = k := by
      simp [cleanupExpiredAuthCodes, hrec]
    have hprod : ((cleanupExpiredAuthCodes now s).2).products = s.products := by
      simp [cleanupExpiredAuthCodes, hrec]
    have husers : ((cleanupExpiredAuthCodes now s).2).users = s.users := by
      simp [cleanupExpiredAuthCodes, hrec]
    refine ⟨by rw [hac, hspec.1], ?_, ?_, ?_, hprod, husers⟩
    · intro ka hka
      rw [hac, hspec.1] at hka
      have hmem := (List.mem_filter.1 hka).2
      simp only [liveEntry, Bool.not_eq_true', Bool.or_eq_false_iff,
        decide_eq_false_iff_not] at hmem
      exact ⟨hmem.2, not_lt.1 hmem.1⟩
    · intro ka hka hused hexp
      rw [hac, hspec.1]
      exact List.mem_filter.2 ⟨hka, by simp [liveEntry, hused, not_lt.2 hexp]⟩
    · rw [hk, hac]
      have := hspec.2
      omega

/-- Witness for C9 at a concrete store with one dead and one live entry:
the count is 1 and the live entry survives (its liveness hypotheses
discharged concretely). -/
theorem cleanup_removes_exactly_dead_witness :
    (cleanupExpiredAuthCodes 50 wStoreMix).1 =
      wStoreMix.authCodes.length -
        ((cleanupExpiredAuthCodes 50 wStoreMix).2).authCodes.length ∧
    ("c2", ({ code := "c2", email := "b@b.com", expiresAt := 100, used := false } :
        AuthorizationCode)) ∈ ((cleanupExpiredAuthCodes 50 wStoreMix).2).authCodes :=
  ⟨(cleanup_removes_exactly_dead 50 wStoreMix).2.2.2.1,
   (cleanup_removes_exactly_dead 50 wStoreMix).2.2.1 _ (by decide) (by decide) (by decide)⟩

/-! #### String splitting (supporting C10) -/

theorem splitChar_ne_nil (sep : Char) : ∀ l : List Char, splitChar sep l ≠ [] := by
  intro l
  induction l with
  | nil => simp [splitChar]
  | cons c rest ih =>
    by_cases hc : c = sep
    · simp [splitChar, hc]
    · simp only [splitChar, if_neg hc]
      cases hsp : splitChar sep rest with
      | nil => simp
      | cons p ps => simp

theorem splitChar_eq_singleton (sep : Char) :
    ∀ {l x : List Char}, splitChar sep l = [x] → l = x ∧ sep ∉ x := by
  intro l
  induction l with
  | nil =>
    intro x h
    simp only [splitChar] at h
    injection h with h1 _
    exact ⟨h1.symm ▸ rfl, by simp [← h1]⟩
  | cons c rest ih =>
    intro x h
    by_cases hc : c = sep
    · simp only [splitChar, if_pos hc] at h
      injection h with h1 h2
      exact absurd h2 (splitChar_ne_nil sep rest)
    · simp only [splitChar, if_neg hc] at h
      cases hsp : splitChar sep rest with
      | nil => exact absurd hsp (splitChar_ne_nil sep rest)
      | cons p ps =>
        rw [hsp] at h
        injection h with h1 h2
        subst h2
        have hps : splitChar sep rest = [p] := hsp
        obtain ⟨hrest, hpin⟩ := ih hps
        subst hrest
        refine ⟨by rw [← h1], ?_⟩
        rw [← h1]
        intro hmem
        rcases List.mem_cons.1 hmem with h' | h'
        · exact hc h'.symm
        · exact hpin h'

theorem splitChar_no_sep (sep : Char) :
    ∀ {l : List Char}, sep ∉ l → splitChar sep l = [l] := by
  intro l
  induction l with
  | nil => intro _; rfl
  | cons c rest ih =>
    intro hmem
    have hc : ¬c = sep := fun h => hmem (by simp [h])
    have hrest : sep ∉ rest := fun h => hmem (List.mem_cons_of_mem _ h)
    simp only [splitChar, if_neg hc, ih hrest]

theorem splitChar_append_sep (sep : Char) :
    ∀ {a b : List Char}, sep ∉ a →
      splitChar sep (a ++ sep :: b) = a :: splitChar sep b := by
  intro a
  induction a with
  | nil => intro b _; simp [splitChar]
  | cons c a' ih =>
    intro b hmem
    have hc : ¬c = sep := fun h => hmem (by simp [h])
    have ha' : sep ∉ a' := fun h => hmem (List.mem_cons_of_mem _ h)
    simp only [List.cons_append, splitChar, if_neg hc, List.append_eq, ih ha']

theorem splitChar_pair_inv (sep : Char) :
    ∀ {l a b : List Char}, splitChar sep l = [a, b] →
      l = a ++ sep :: b ∧ sep ∉ a ∧ sep ∉ b := by
  intro l
  induction l with
  | nil => intro a b h; simp [splitChar] at h
  | cons c rest ih =>
    intro a b h
    by_cases hc : c = sep
    · subst hc
      simp only [splitChar, if_pos rfl] at h
      injection h with h1 h2
      obtain ⟨hrest, hbin⟩ := splitChar_eq_singleton c h2
      subst hrest
      exact ⟨by rw [← h1]; rfl, by rw [← h1]; simp, hbin⟩
    · simp only [splitChar, if_neg hc] at h
      cases hsp : splitChar sep rest with
      | nil => exact absurd hsp (splitChar_ne_nil sep rest)
      | cons p ps =>
        rw [hsp] at h
        injection h with h1 h2
        subst h2
        have : splitChar sep rest = [p, b] := hsp
        obtain ⟨hrest, hpa, hpb⟩ := ih this
        subst hrest
        refine ⟨by rw [← h1]; rfl, ?_, hpb⟩
        rw [← h1]
        intro hmem
        rcases List.mem_cons.1 hmem with h' | h'
        · exact hc h'.symm
        · exact hpa h'

/-- C10: `extractTokenFromHeader` returns a token exactly when the header
is present and is literally `'Bearer'`, one space, then the token (which
itself contains no space); every other shape — including a missing or
empty header, a wrong or differently-cased scheme word, extra spaces or
extra parts — yields `none` rather than an error. -/
theorem extractTokenFromHeader_spec (h : Option (List Char)) (t : List Char) :
    extractTokenFromHeader h = some t ↔
      h = some (bearerChars ++ ' ' :: t) ∧ ' ' ∉ t := by
  constructor
  · intro he
    cases h with
    | none => simp [extractTokenFromHeader] at he
    | some cs =>
      by_cases hnil : cs = []
      · subst hnil
        simp [extractTokenFromHeader] at he
      · simp only [extractTokenFromHeader, if_neg hnil] at he
        cases hsp : splitChar ' ' cs with
        | nil => exact absurd hsp (splitChar_ne_nil ' ' cs)
        | cons p0 rest =>
          cases rest with
          | nil =>
            rw [hsp] at he
            simp at he
          | cons p1 rest2 =>
            cases rest2 with
            | nil =>
              rw [hsp] at he
              by_cases hb : p0 = bearerChars
              · simp only [if_pos hb] at he
                injection he with ht
                subst ht
                obtain ⟨hcs, _, hpb⟩ := splitChar_pair_inv ' ' hsp
                subst hb
                exact ⟨by rw [hcs], hpb⟩
              · simp only [if_neg hb] at he
                cases he
            | cons q qs =>
              rw [hsp] at he
              simp at he
  · rintro ⟨hh, hnot⟩
    subst hh
    have hne : ¬(bearerChars ++ ' ' :: t = []) := by simp
    simp only [extractTokenFromHeader, if_neg hne]
    have hbne : (' ' : Char) ∉ bearerChars := by decide
    rw [splitChar_append_sep ' ' hbne, splitChar_no_sep ' ' hnot]
    simp

/-! #### Pricing accumulation (supporting C5) -/

theorem pricingLoop_total (s : Store) :
    ∀ (items : List CheckoutItem) (acc : ℚ) (done : List PricedItem) (t : ℚ)
      (ri : List PricedItem),
      pricingLoop s acc done items = Except.ok (t, ri) →
      t = items.foldl
            (fun a it =>
              match getProductById s it.productId with
              | some p => fl (a + fl (p.price * (it.quantity : ℚ)))
              | none => a)
            acc := by
  intro items
  induction items with
  | nil =>
    intro acc done t ri h
    simp only [pricingLoop, Except.ok.injEq, Prod.mk.injEq] at h
    simp [← h.1]
  | cons it rest ih =>
    intro acc done t ri h
    simp only [pricingLoop] at h
    cases hg : getProductById s it.productId with
    | none =>
      rw [hg] at h
      cases h
    | some p =>
      rw [hg] at h
      have := ih _ _ _ _ h
      rw [this]
      simp only [List.foldl_cons, hg]

/-- C5 (amended): the `totalAmount` of a successful checkout equals the
binary64 accumulation of `unitPrice * quantity` over the lines — one
rounding per multiplication and one per running addition — not the exact
rational sum; and the spec's concrete line `{prod_1 at 19.99, qty 3}`
yields exactly the binary64 value written 59.97
(2110006794167255 / 2^45 = 59.96999999999999886…). -/
theorem checkout_total_float_accumulation (intentId : String) (items : List CheckoutItem)
    (s : Store) (r : CheckoutResponse)
    (h : (processCheckout intentId items s).1 = Except.ok r) :
    r.totalAmount = floatTotal s items ∧
    (processCheckout "pi_t" specScenarioItems storeSpecScenario).1.map
        CheckoutResponse.totalAmount = Except.ok d5997 := by
  constructor
  · unfold processCheckout at h
    cases h1 : preflight s items with
    | some e => rw [h1] at h; cases h
    | none =>
      rw [h1] at h
      cases h2 : pricingLoop s 0 [] items with
      | error e => rw [h2] at h; cases h
      | ok pr =>
        obtain ⟨t, ri⟩ := pr
        rw [h2] at h
        cases h3 : debitLoopSrc s items with
        | mk o s' =>
          rw [h3] at h
          cases o with
          | some e => cases h
          | none =>
            simp only [Except.ok.injEq] at h
            have ht : r.totalAmount = t := by rw [← h]
            rw [ht, floatTotal]
            exact pricingLoop_total s items 0 [] t ri h2
  · decide

/-- Witness for C5's amended theorem: the success hypothesis discharged at
the spec's concrete scenario, whose response is `specScenarioResponse`. -/
theorem checkout_total_float_accumulation_witness :
    (processCheckout "pi_t" specScenarioItems storeSpecScenario).1 =
      Except.ok specScenarioResponse ∧
    (specScenarioResponse.totalAmount = floatTotal storeSpecScenario specScenarioItems ∧
      (processCheckout "pi_t" specScenarioItems storeSpecScenario).1.map
          CheckoutResponse.totalAmount = Except.ok d5997) :=
  ⟨by decide,
   checkout_total_float_accumulation "pi_t" specScenarioItems storeSpecScenario
     specScenarioResponse (by decide)⟩

/-! #### Pagination (supporting C8) -/

theorem qfloor_eq_floor (q : ℚ) : qfloor q = ⌊q⌋ := Rat.floor_def.symm

theorem qceil_eq_ceil (q : ℚ) : qceil q = ⌈q⌉ := by
  unfold qceil
  rw [qfloor_eq_floor, Int.floor_neg, neg_neg]

theorem jsSlice_window (start limit : ℤ) (l : List α) (h1 : 0 ≤ start) (h2 : 0 ≤ limit) :
    jsSlice start (start + limit) l = (l.drop start.toNat).take limit.toNat := by
  unfold jsSlice
  dsimp only
  rw [if_neg (by omega), if_neg (by omega)]
  by_cases hcase : (l.length : ℤ) ≤ start
  · have hs : min start ((l.length : ℤ)) = (l.length : ℤ) := min_eq_right hcase
    have he : min (start + limit) ((l.length : ℤ)) = (l.length : ℤ) := min_eq_right (by omega)
    rw [hs, he]
    have h0 : ((l.length : ℤ) - (l.length : ℤ)).toNat = 0 := by omega
    have hd : l.drop start.toNat = [] := List.drop_eq_nil_of_le (by omega)
    rw [h0, hd]
    simp
  · have hs : min start ((l.length : ℤ)) = start := min_eq_left (by omega)
    rw [hs]
    by_cases hfit : start + limit ≤ (l.length : ℤ)
    · have he : min (start + limit) ((l.length : ℤ)) = start + limit := min_eq_left hfit
      rw [he]
      have hn : (start + limit - start).toNat = limit.toNat := by omega
      rw [hn]
    · have he : min (start + limit) ((l.length : ℤ)) = (l.length : ℤ) := min_eq_right (by omega)
      rw [he]
      have hxs : (l.drop start.toNat).length = ((l.length : ℤ) - start).toNat := by
        rw [List.length_drop]
        omega
      have hle1 : (l.drop start.toNat).length ≤ ((l.length : ℤ) - start).toNat :=
        le_of_eq hxs
      have hle2 : (l.drop start.toNat).length ≤ limit.toNat := by
        rw [hxs]
        omega
      rw [List.take_of_length_le hle1, List.take_of_length_le hle2]

/-- C8: for `page ≥ 1` and `limit ∈ [1, 100]`, the catalogue listing has
`totalPages = ⌈totalActive / limit⌉`, its product list is the window
`[(page-1)·limit, page·limit)` of the active products clamped to the
available length (so an out-of-range page yields an empty list, not an
error), and an empty backing store yields an empty result with
`totalPages = 0`. -/
theorem getCatalogue_paginates (q : PaginationQuery) (s : Store)
    (hp : 1 ≤ q.page.getD 1) (hl1 : 1 ≤ q.limit.getD 10) (hl2 : q.limit.getD 10 ≤ 100) :
    (getCatalogue q s).pagination.totalPages =
      ⌈((activeProducts s).length : ℚ) / ((q.limit.getD 10 : ℤ) : ℚ)⌉ ∧
    (getCatalogue q s).products =
      ((activeProducts s).drop ((q.page.getD 1 - 1) * q.limit.getD 10).toNat).take
        (q.limit.getD 10).toNat ∧
    ((getCatalogue q s).pagination.totalPages < q.page.getD 1 →
      (getCatalogue q s).products = []) ∧
    (s.products = [] →
      (getCatalogue q s).products = [] ∧
      (getCatalogue q s).pagination.totalPages = 0 ∧
      (getCatalogue q s).pagination.totalItems = 0) := by
  by_cases hemp : s.products.length = 0
  · have hsp : s.products = [] := List.length_eq_zero.1 hemp
    have hact : activeProducts s = [] := by simp [activeProducts, hsp]
    refine ⟨?_, ?_, ?_, ?_⟩
    · simp [getCatalogue, hemp, hact]
    · simp [getCatalogue, hemp, hact]
    · intro _
      simp [getCatalogue, hemp]
    · intro _
      simp [getCatalogue, hemp]
  · have hslice := jsSlice_window ((q.page.getD 1 - 1) * q.limit.getD 10) (q.limit.getD 10)
      (activeProducts s) (mul_nonneg (by omega) (by omega)) (by omega)
    have htp : (getCatalogue q s).pagination.totalPages =
        ⌈((activeProducts s).length : ℚ) / ((q.limit.getD 10 : ℤ) : ℚ)⌉ := by
      simp only [getCatalogue, if_neg hemp]
      rw [qceil_eq_ceil]
      rfl
    have hprods : (getCatalogue q s).products =
        ((activeProducts s).drop ((q.page.getD 1 - 1) * q.limit.getD 10).toNat).take
          (q.limit.getD 10).toNat := by
      simp only [getCatalogue, if_neg hemp]
      exact hslice
    refine ⟨htp, hprods, ?_, ?_⟩
    · intro hlt
      rw [htp] at hlt
      rw [hprods]
      have hlim0 : (0 : ℚ) < ((q.limit.getD 10 : ℤ) : ℚ) := by
        have : (0 : ℤ) < q.limit.getD 10 := by omega
        exact_mod_cast this
      have hle : (((activeProducts s).length : ℤ) : ℚ) ≤
          (⌈((activeProducts s).length : ℚ) / ((q.limit.getD 10 : ℤ) : ℚ)⌉ *
            q.limit.getD 10 : ℤ) := by
        push_cast
        rw [← div_le_iff₀ hlim0]
        exact Int.le_ceil _
      have hle' : ((activeProducts s).length : ℤ) ≤
          ⌈((activeProducts s).length : ℚ) / ((q.limit.getD 10 : ℤ) : ℚ)⌉ *
            q.limit.getD 10 := by exact_mod_cast hle
      have hmul : ⌈((activeProducts s).length : ℚ) / ((q.limit.getD 10 : ℤ) : ℚ)⌉ *
          q.limit.getD 10 ≤ (q.page.getD 1 - 1) * q.limit.getD 10 :=
        mul_le_mul_of_nonneg_right (by omega) (by omega)
      have hdrop : (activeProducts s).drop
          ((q.page.getD 1 - 1) * q.limit.getD 10).toNat = [] :=
        List.drop_eq_nil_of_le (by omega)
      rw [hdrop]
      simp
    · intro h
      exact absurd (by simp [h]) hemp

/-- Witness for C8 at a concrete catalogue: three products of which two
are active, page 2 with limit 1. -/
theorem getCatalogue_paginates_witness :
    (1 : ℤ) ≤ 2 ∧ (1 : ℤ) ≤ 1 ∧ (1 : ℤ) ≤ 100 ∧
    ((getCatalogue { page := some 2, limit := some 1 } wStoreCat).pagination.totalPages =
        ⌈((activeProducts wStoreCat).length : ℚ) / ((1 : ℤ) : ℚ)⌉ ∧
      (getCatalogue { page := some 2, limit := some 1 } wStoreCat).products =
        ((activeProducts wStoreCat).drop ((2 - 1) * 1 : ℤ).toNat).take (1 : ℤ).toNat ∧
      ((getCatalogue { page := some 2, limit := some 1 } wStoreCat).pagination.totalPages < 2 →
        (getCatalogue { page := some 2, limit := some 1 } wStoreCat).products = []) ∧
      (wStoreCat.products = [] →
        (getCatalogue { page := some 2, limit := some 1 } wStoreCat).products = [] ∧
        (getCatalogue { page := some 2, limit := some 1 } wStoreCat).pagination.totalPages = 0 ∧
        (getCatalogue { page := some 2, limit := some 1 } wStoreCat).pagination.totalItems =
          0)) :=
  ⟨by decide, by decide, by decide,
   getCatalogue_paginates { page := some 2, limit := some 1 } wStoreCat (by decide) (by decide)
     (by decide)⟩

/-! #### Map lookup/update lemmas (supporting C3) -/

theorem mapGet_mapSet_self {α : Type _} (k : String) (v : α) :
    ∀ l : List (String × α), mapGet k (mapSet k v l) = some v := by
  intro l
  induction l with
  | nil => simp [mapSet, mapGet]
  | cons hd tl ih =>
    obtain ⟨k', v'⟩ := hd
    by_cases hk : k' = k <;> simp [mapSet, mapGet, hk, ih]

theorem mapGet_mapSet_ne {α : Type _} {k k' : String} (hne : k' ≠ k) (v : α) :
    ∀ l : List (String × α), mapGet k (mapSet k' v l) = mapGet k l := by
  intro l
  induction l with
  | nil => simp [mapSet, mapGet, hne]
  | cons hd tl ih =>
    obtain ⟨k0, v0⟩ := hd
    by_cases hk : k0 = k'
    · subst hk
      simp [mapSet, mapGet, hne]
    · simp only [mapSet, if_neg hk, mapGet, ih]

theorem mapGet_mapDel_ne {α : Type _} {k k' : String} (hne : k' ≠ k) :
    ∀ l : List (String × α), mapGet k (mapDel k' l) = mapGet k l := by
  intro l
  induction l with
  | nil => simp [mapDel]
  | cons hd tl ih =>
    obtain ⟨k0, v0⟩ := hd
    by_cases hk : k0 = k'
    · subst hk
      simp [mapDel, mapGet, hne]
    · simp only [mapDel, if_neg hk, mapGet, ih]

theorem mapGet_eq_none_of_not_mem_keys {α : Type _} (k : String) :
    ∀ l : List (String × α), k ∉ l.map Prod.fst → mapGet k l = none := by
  intro l
  induction l with
  | nil => intro _; rfl
  | cons hd tl ih =>
    obtain ⟨k0, v0⟩ := hd
    intro hmem
    have hk0 : k0 ≠ k := by
      intro h
      exact hmem (by simp [h])
    have htl : k ∉ tl.map Prod.fst := fun h => hmem (by simp [h])
    simp only [mapGet, if_neg hk0, ih htl]

theorem mapGet_mapDel_self {α : Type _} (k : String) :
    ∀ l : List (String × α), NodupKeys l → mapGet k (mapDel k l) = none := by
  intro l
  induction l with
  | nil => intro _; rfl
  | cons hd tl ih =>
    obtain ⟨k0, v0⟩ := hd
    intro hnd
    have hnd' : NodupKeys tl := (List.nodup_cons.1 hnd).2
    have hk0nin : k0 ∉ tl.map Prod.fst := (List.nodup_cons.1 hnd).1
    by_cases hk : k0 = k
    · subst hk
      simp only [mapDel, if_pos rfl]
      exact mapGet_eq_none_of_not_mem_keys k0 tl hk0nin
    · simp only [mapDel, if_neg hk, mapGet, if_neg hk, ih hnd']

theorem mapSet_keys {α : Type _} (k : String) (v : α) :
    ∀ l : List (String × α),
      (mapSet k v l).map Prod.fst =
        if k ∈ l.map Prod.fst then l.map Prod.fst else l.map Prod.fst ++ [k] := by
  intro l
  induction l with
  | nil => simp [mapSet]
  | cons hd tl ih =>
    obtain ⟨k0, v0⟩ := hd
    by_cases hk : k0 = k
    · subst hk
      simp [mapSet]
    · simp only [mapSet, if_neg hk, List.map_cons, ih]
      by_cases hmem : k ∈ tl.map Prod.fst
      · rw [if_pos hmem, if_pos (by simp [hmem])]
      · rw [if_neg hmem, if_neg (by simp [hmem, Ne.symm hk])]
        simp

theorem nodupKeys_mapSet {α : Type _} (k : String) (v : α) (l : List (String × α))
    (h : NodupKeys l) : NodupKeys (mapSet k v l) := by
  unfold NodupKeys at *
  rw [mapSet_keys]
  by_cases hmem : k ∈ l.map Prod.fst
  · rwa [if_pos hmem]
  · rw [if_neg hmem]
    simp [List.nodup_append, h, hmem]

theorem mapDel_sublist {α : Type _} (k : String) :
    ∀ l : List (String × α), (mapDel k l).Sublist l := by
  intro l
  induction l with
  | nil => simp [mapDel]
  | cons hd tl ih =>
    obtain ⟨k0, v0⟩ := hd
    by_cases hk : k0 = k
    · simp only [mapDel, if_pos hk]
      exact List.sublist_cons_self _ _
    · simp only [mapDel, if_neg hk]
      exact ih.cons₂ _

theorem nodupKeys_mapDel {α : Type _} (k : String) (l : List (String × α))
    (h : NodupKeys l) : NodupKeys (mapDel k l) :=
  List.Nodup.sublist (List.Sublist.map Prod.fst (mapDel_sublist k l)) h

theorem nodupKeys_filter {α : Type _} (p : String × α → Bool) (l : List (String × α))
    (h : NodupKeys l) : NodupKeys (l.filter p) :=
  List.Nodup.sublist (List.Sublist.map Prod.fst (List.filter_sublist l)) h

theorem mapGet_filter {α : Type _} {k : String} {v : α} (p : String × α → Bool) :
    ∀ l : List (String × α), NodupKeys l → mapGet k (l.filter p) = some v →
      mapGet k l = some v := by
  intro l
  induction l with
  | nil => intro _ h; simp [mapGet] at h
  | cons hd tl ih =>
    obtain ⟨k0, v0⟩ := hd
    intro hnd h
    have hnd' : NodupKeys tl := (List.nodup_cons.1 hnd).2
    have hk0nin : k0 ∉ tl.map Prod.fst := (List.nodup_cons.1 hnd).1
    by_cases hp : p (k0, v0) = true
    · rw [List.filter_cons_of_pos hp] at h
      by_cases hk : k0 = k
      · simp only [mapGet, if_pos hk] at h ⊢
        exact h
      · simp only [mapGet, if_neg hk] at h ⊢
        exact ih hnd' h
    · rw [List.filter_cons_of_neg (by simpa using hp)] at h
      have htl := ih hnd' h
      by_cases hk : k0 = k
      · subst hk
        exact absurd (by simpa using List.mem_map_of_mem Prod.fst (mapGet_mem htl))
          hk0nin
      · simp only [mapGet, if_neg hk]
        exact htl

/-! #### Operations leave the code store's key set well-formed
(supporting C3) -/

theorem updateProductInventory_authCodes (s : Store) (pid : String) (q : ℤ) :
    ((updateProductInventory s pid q).2).authCodes = s.authCodes := by
  unfold updateProductInventory
  split
  · rfl
  · cases hget : mapGet pid s.products with
    | none => rfl
    | some p =>
      simp only [hget]
      split <;> rfl

theorem debitLoopSrc_authCodes (items : List CheckoutItem) :
    ∀ s : Store, ((debitLoopSrc s items).2).authCodes = s.authCodes := by
  induction items with
  | nil => intro s; rfl
  | cons it rest ih =>
    intro s
    simp only [debitLoopSrc]
    split
    · rw [ih, updateProductInventory_authCodes]
    · rw [updateProductInventory_authCodes]

theorem rollbackInventoryUpdates_authCodes :
    ∀ (updates : List (String × ℤ)) (s : Store),
      (rollbackInventoryUpdates s updates).authCodes = s.authCodes := by
  intro updates
  induction updates with
  | nil => intro s; rfl
  | cons u rest ih =>
    intro s
    simp only [rollbackInventoryUpdates, List.foldl_cons] at *
    rw [ih]
    cases hget : mapGet u.1 s.products <;> simp [hget]

theorem debitLoopP6_authCodes (items : List CheckoutItem) :
    ∀ (s : Store) (updates : List (String × ℤ)),
      ((debitLoopP6 s updates items).2.1).authCodes = s.authCodes := by
  induction items with
  | nil => intro s updates; rfl
  | cons it rest ih =>
    intro s updates
    simp only [debitLoopP6]
    split
    · rw [ih, updateProductInventory_authCodes]
    · rw [rollbackInventoryUpdates_authCodes, updateProductInventory_authCodes]

theorem processCheckout_authCodes (pid : String) (items : List CheckoutItem) (s : Store) :
    ((processCheckout pid items s).2).authCodes = s.authCodes := by
  unfold processCheckout
  cases h1 : preflight s items with
  | some e => rfl
  | none =>
    cases h2 : pricingLoop s 0 [] items with
    | error e => rfl
    | ok pr =>
      obtain ⟨t, ri⟩ := pr
      have hd := debitLoopSrc_authCodes items s
      cases h3 : debitLoopSrc s items with
      | mk o s' =>
        rw [h3] at hd
        cases o <;> simpa using hd

theorem processCheckoutP6_authCodes (pid : String) (items : List CheckoutItem) (s : Store) :
    ((processCheckoutP6 pid items s).2).authCodes = s.authCodes := by
  unfold processCheckoutP6
  split
  · rfl
  · cases h1 : preflight s items with
    | some e => rfl
    | none =>
      cases h2 : pricingLoop s 0 [] items with
      | error e => rfl
      | ok pr =>
        obtain ⟨t, ri⟩ := pr
        have hd := debitLoopP6_authCodes items s []
        cases h3 : debitLoopP6 s [] items with
        | mk o rest =>
          obtain ⟨s1, updates⟩ := rest
          rw [h3] at hd
          cases o with
          | none => simpa using hd
          | some pid' =>
            simp only
            rw [rollbackInventoryUpdates_authCodes]
            simpa using hd

theorem applyOp_nodup (op : Op) (s : Store) (h : NodupKeys s.authCodes) :
    NodupKeys ((applyOp s op).authCodes) := by
  cases op with
  | login e c n d =>
    show NodupKeys ((handleLogin e c n d s).2.authCodes)
    exact nodupKeys_mapSet _ _ _ h
  | redeem c n es =>
    show NodupKeys ((exchangeCodeForToken c n es s).2.authCodes)
    unfold exchangeCodeForToken
    cases hget : mapGet c s.authCodes with
    | none => exact h
    | some ac =>
      simp only [hget]
      split
      · exact h
      · split
        · exact nodupKeys_mapDel _ _ h
        · exact nodupKeys_mapSet _ _ _ h
  | catalogue q => exact h
  | checkoutSrc pid items =>
    show NodupKeys ((processCheckout pid items s).2.authCodes)
    rw [processCheckout_authCodes]
    exact h
  | checkoutP6 pid items =>
    show NodupKeys ((processCheckoutP6 pid items s).2.authCodes)
    rw [processCheckoutP6_authCodes]
    exact h
  | sweep n =>
    show NodupKeys ((cleanupExpiredAuthCodes n s).2.authCodes)
    have hspec := (cleanupLoop_spec n s.authCodes).1
    cases hrec : cleanupLoop n s.authCodes with
    | mk l' k =>
      rw [hrec] at hspec
      dsimp only at hspec
      have hac : ((cleanupExpiredAuthCodes n s).2).authCodes = l' := by
        simp [cleanupExpiredAuthCodes, hrec]
      rw [hac, hspec]
      exact nodupKeys_filter _ _ h

theorem runOps_nodup (pre : List Op) :
    ∀ s : Store, NodupKeys s.authCodes → NodupKeys ((runOps s pre).authCodes) := by
  induction pre with
  | nil => intro s h; exact h
  | cons op rest ih =>
    intro s h
    simp only [runOps, List.foldl_cons]
    exact ih _ (applyOp_nodup op s h)

/-! #### The used-or-absent invariant for a redeemed code (supporting C3) -/

theorem usedOrAbsent_applyOp (c : String) (op : Op) (s : Store)
    (hnd : NodupKeys s.authCodes) (hav : loginAvoids c op) (h : UsedOrAbsent c s) :
    UsedOrAbsent c (applyOp s op) := by
  cases op with
  | login e c' n d =>
    intro ac hac
    have hne : c' ≠ c := hav
    dsimp only [applyOp, handleLogin] at hac
    rw [mapGet_mapSet_ne hne] at hac
    exact h ac hac
  | redeem c' n es =>
    show UsedOrAbsent c ((exchangeCodeForToken c' n es s).2)
    unfold exchangeCodeForToken
    cases hget : mapGet c' s.authCodes with
    | none => exact h
    | some ac0 =>
      simp only [hget]
      by_cases hu : ac0.used = true
      · rw [if_pos hu]
        exact h
      · rw [if_neg hu]
        by_cases hexp : ac0.expiresAt < n
        · rw [if_pos hexp]
          intro ac hac
          dsimp only at hac
          by_cases hc : c' = c
          · subst hc
            rw [mapGet_mapDel_self c' s.authCodes hnd] at hac
            cases hac
          · rw [mapGet_mapDel_ne hc] at hac
            exact h ac hac
        · rw [if_neg hexp]
          intro ac hac
          dsimp only at hac
          by_cases hc : c' = c
          · subst hc
            rw [mapGet_mapSet_self] at hac
            cases hac
            rfl
          · rw [mapGet_mapSet_ne hc] at hac
            exact h ac hac
  | catalogue q => exact h
  | checkoutSrc pid items =>
    intro ac hac
    dsimp only [applyOp] at hac
    rw [processCheckout_authCodes] at hac
    exact h ac hac
  | checkoutP6 pid items =>
    intro ac hac
    dsimp only [applyOp] at hac
    rw [processCheckoutP6_authCodes] at hac
    exact h ac hac
  | sweep n =>
    intro ac hac
    dsimp only [applyOp] at hac
    have hspec := (cleanupLoop_spec n s.authCodes).1
    cases hrec : cleanupLoop n s.authCodes with
    | mk l' k =>
      rw [hrec] at hspec
      dsimp only at hspec
      have hacs : ((cleanupExpiredAuthCodes n s).2).authCodes = l' := by
        simp [cleanupExpiredAuthCodes, hrec]
      rw [hacs, hspec] at hac
      exact h ac (mapGet_filter _ s.authCodes hnd hac)

theorem redeem_fails_of_usedOrAbsent (c : String) (now es : ℤ) (s : Store)
    (h : UsedOrAbsent c s) :
    (exchangeCodeForToken c now es s).1 = Except.error TokenErr.alreadyUsed ∨
    (exchangeCodeForToken c now es s).1 = Except.error TokenErr.invalidCode := by
  unfold exchangeCodeForToken
  cases hget : mapGet c s.authCodes with
  | none => right; rfl
  | some ac =>
    left
    have := h ac hget
    simp [hget, this]

theorem usedOrAbsent_after_success (c : String) (now es : ℤ) (s : Store)
    (h : exIsOk (exchangeCodeForToken c now es s).1 = true) :
    UsedOrAbsent c (applyOp s (Op.redeem c now es)) := by
  show UsedOrAbsent c ((exchangeCodeForToken c now es s).2)
  unfold exchangeCodeForToken at h ⊢
  cases hget : mapGet c s.authCodes with
  | none =>
    simp only [hget] at h
    exact absurd h (by simp [exIsOk])
  | some ac =>
    simp only [hget] at h ⊢
    by_cases hu : ac.used = true
    · rw [if_pos hu] at h
      exact absurd h (by simp [exIsOk])
    · rw [if_neg hu] at h ⊢
      by_cases hexp : ac.expiresAt < now
      · rw [if_pos hexp] at h
        exact absurd h (by simp [exIsOk])
      · rw [if_neg hexp]
        intro ac' hac'
        dsimp only at hac'
        rw [mapGet_mapSet_self] at hac'
        cases hac'
        rfl

theorem allFail_of_usedOrAbsent (c : String) :
    ∀ (ops : List Op) (s : Store), NodupKeys s.authCodes → UsedOrAbsent c s →
      (∀ op ∈ ops, loginAvoids c op) →
      redeemsAllFail c s ops ∧ redeemSuccessCount c s ops = 0 := by
  intro ops
  induction ops with
  | nil => intro s _ _ _; exact ⟨trivial, rfl⟩
  | cons op rest ih =>
    intro s hnd hP hlog
    have hnd' := applyOp_nodup op s hnd
    have hP' := usedOrAbsent_applyOp c op s hnd (hlog op (List.mem_cons_self _ _)) hP
    have hrest := ih (applyOp s op) hnd' hP'
      (fun o ho => hlog o (List.mem_cons_of_mem _ ho))
    constructor
    · refine ⟨?_, hrest.1⟩
      intro now es hop
      subst hop
      exact redeem_fails_of_usedOrAbsent c now es s hP
    · cases op with
      | redeem c' now es =>
        simp only [redeemSuccessCount]
        rw [if_neg]
        · exact hrest.2
        · rintro ⟨rfl, hok⟩
          rcases redeem_fails_of_usedOrAbsent c' now es s hP with hf | hf <;>
            simp [hf, exIsOk] at hok
      | login e c' n d => simp only [redeemSuccessCount]; exact hrest.2
      | catalogue q => simp only [redeemSuccessCount]; exact hrest.2
      | checkoutSrc pid items => simp only [redeemSuccessCount]; exact hrest.2
      | checkoutP6 pid items => simp only [redeemSuccessCount]; exact hrest.2
      | sweep n => simp only [redeemSuccessCount]; exact hrest.2

theorem successCount_le_one (c : String) :
    ∀ (ops : List Op) (s : Store), NodupKeys s.authCodes →
      (∀ op ∈ ops, loginAvoids c op) → redeemSuccessCount c s ops ≤ 1 := by
  intro ops
  induction ops with
  | nil => intro s _ _; simp [redeemSuccessCount]
  | cons op rest ih =>
    intro s hnd hlog
    have hnd' := applyOp_nodup op s hnd
    have hlog' := fun o ho => hlog o (List.mem_cons_of_mem op ho)
    cases op with
    | redeem c' now es =>
      simp only [redeemSuccessCount]
      by_cases hcond : c' = c ∧ exIsOk (exchangeCodeForToken c' now es s).1 = true
      · rw [if_pos hcond]
        obtain ⟨rfl, hok⟩ := hcond
        have hP := usedOrAbsent_after_success c' now es s hok
        have hz := (allFail_of_usedOrAbsent c' rest (applyOp s (Op.redeem c' now es)) hnd'
          hP hlog').2
        omega
      · rw [if_neg hcond]
        exact ih _ hnd' hlog'
    | login e c' n d => simp only [redeemSuccessCount]; exact ih _ hnd' hlog'
    | catalogue q => simp only [redeemSuccessCount]; exact ih _ hnd' hlog'
    | checkoutSrc pid items => simp only [redeemSuccessCount]; exact ih _ hnd' hlog'
    | checkoutP6 pid items => simp only [redeemSuccessCount]; exact ih _ hnd' hlog'
    | sweep n => simp only [redeemSuccessCount]; exact ih _ hnd' hlog'

/-- C3 (amended): over any sequential run whose code store has distinct
keys and whose logins issue codes different from `c` (fresh randomness),
at most one redeem of `c` ever succeeds; and after a successful redeem of
`c`, every later redeem of `c` fails — with the already-used error while
the used entry is still stored, or with the invalid-code error once the
reaper sweep (or an expiry deletion) has removed the dead entry. -/
theorem redeem_at_most_once (c : String) (s : Store) (ops : List Op)
    (hnd : NodupKeys s.authCodes) (hlog : ∀ op ∈ ops, loginAvoids c op) :
    redeemSuccessCount c s ops ≤ 1 ∧
    ∀ (pre post : List Op) (now es : ℤ),
      ops = pre ++ Op.redeem c now es :: post →
      exIsOk (exchangeCodeForToken c now es (runOps s pre)).1 = true →
      redeemsAllFail c (applyOp (runOps s pre) (Op.redeem c now es)) post := by
  constructor
  · exact successCount_le_one c ops s hnd hlog
  · intro pre post now es hops hok
    have hndpre := runOps_nodup pre s hnd
    have hndpost := applyOp_nodup (Op.redeem c now es) (runOps s pre) hndpre
    have hP := usedOrAbsent_after_success c now es (runOps s pre) hok
    refine (allFail_of_usedOrAbsent c post _ hndpost hP ?_).1
    intro o ho
    refine hlog o ?_
    rw [hops]
    exact List.mem_append_right _ (List.mem_cons_of_mem _ ho)

/-- Witness for C3's amended theorem: a concrete run that redeems `c`,
sweeps, and redeems again. -/
theorem redeem_at_most_once_witness :
    NodupKeys wStoreUnused.authCodes ∧
    (∀ op ∈ [Op.redeem "c" 50 60, Op.sweep 50, Op.redeem "c" 50 60],
      loginAvoids "c" op) ∧
    (redeemSuccessCount "c" wStoreUnused
        [Op.redeem "c" 50 60, Op.sweep 50, Op.redeem "c" 50 60] ≤ 1 ∧
      ∀ (pre post : List Op) (now es : ℤ),
        [Op.redeem "c" 50 60, Op.sweep 50, Op.redeem "c" 50 60] =
          pre ++ Op.redeem "c" now es :: post →
        exIsOk (exchangeCodeForToken "c" now es (runOps wStoreUnused pre)).1 = true →
        redeemsAllFail "c"
          (applyOp (runOps wStoreUnused pre) (Op.redeem "c" now es)) post) :=
  ⟨by decide, by decide,
   redeem_at_most_once "c" wStoreUnused
     [Op.redeem "c" 50 60, Op.sweep 50, Op.redeem "c" 50 60] (by decide) (by decide)⟩

/-- C3 (counterexample): the claim's "every subsequent Redeem of that same
code fails with an already-used error" is false once a reaper sweep runs
in between: redeeming `c` succeeds, the sweep removes the used entry, and
the next redeem of `c` fails with the invalid-code error instead. -/
theorem redeem_after_reap_not_already_used :
    exIsOk (exchangeCodeForToken "c" 50 60 wStoreUnused).1 = true ∧
    (exchangeCodeForToken "c" 50 60
        (applyOp (applyOp wStoreUnused (Op.redeem "c" 50 60)) (Op.sweep 50))).1 =
      Except.error TokenErr.invalidCode ∧
    TokenErr.invalidCode ≠ TokenErr.alreadyUsed := by
  decide

end BackForCatalog
